import Mathlib

/- Verification development for the figure-generation scripts under
figures/background/ (challenge1.py, challenge2.py, variation.py).

The scripts synthesize random samples with a seeded numpy generator and
render histograms.  The generator is embedded as streams of abstract
draws: a stream of standard-normal draws, a categorical-choice stream,
an integer stream and a uniform stream.  The numpy primitives used by
the scripts are translated pointwise:

  rng.normal mu sigma          ~>  mu + sigma * z      (z the next normal draw)
  rng.lognormal mu sigma       ~>  Real.exp (mu + sigma * z)
  rng.choice k (p := w)        ~>  next choice draw modulo k
  rng.integers lo (hi + 1)     ~>  lo + draw % (hi + 1 - lo)
  rng.random ()                ~>  next uniform draw

Structural properties (lengths, signs, clipping ranges) are proved for
every draw stream; refutations exhibit a concrete stream.  Arithmetic is
exact real arithmetic. -/

namespace SP

/-- Abstract draw streams standing for a seeded numpy generator. -/
structure RngStreams where
  normal : ℕ → ℝ
  choice : ℕ → ℕ
  ints : ℕ → ℕ
  unif : ℕ → ℝ

/-- All-zero draw streams (used to evaluate the generators concretely). -/
noncomputable def gZero : RngStreams :=
  ⟨fun _ => 0, fun _ => 0, fun _ => 0, fun _ => 0⟩

/-- Streams whose standard-normal draws are all -10 (a far-left tail draw). -/
noncomputable def gNeg : RngStreams :=
  ⟨fun _ => -10, fun _ => 0, fun _ => 0, fun _ => 0⟩

/-- Advance each stream of a generator by a fixed number of consumed draws. -/
noncomputable def shift (g : RngStreams) (a b c d : ℕ) : RngStreams :=
  ⟨fun i => g.normal (a + i), fun i => g.choice (b + i),
   fun i => g.ints (c + i), fun i => g.unif (d + i)⟩

/-- Deterministic model of the seeded bit generator: each draw is a fixed
function of the seed and the draw index (the multiplier is PCG64's LCG
multiplier).  Only the determinism matters for the claims; the concrete
values of numpy's PCG64 differ. -/
def pcgWord (seed i : ℕ) : ℕ :=
  (seed * 6364136223846793005 + i * 1442695040888963407) % 2 ^ 64

/-- Model of numpy.random.default_rng: the draw streams are a pure function
of the seed. -/
noncomputable def defaultRng (seed : ℕ) : RngStreams where
  normal := fun i => (pcgWord seed (4 * i) : ℝ) / 2 ^ 64 - 1 / 2
  choice := fun i => pcgWord seed (4 * i + 1)
  ints := fun i => pcgWord seed (4 * i + 2)
  unif := fun i => (pcgWord seed (4 * i + 3) : ℝ) / 2 ^ 64

/-- The ambient input of a script process: command-line arguments and
environment variables.  None of the scripts reads either. -/
structure ScriptInput where
  argv : List String
  env : List (String × String)

/-- rng.normal mu sigma count: `count` normal draws taken from the normal
stream starting at position `start`. -/
noncomputable def npNormalDraws (g : RngStreams) (start : ℕ) (mu sigma : ℝ)
    (count : ℕ) : List ℝ :=
  (List.range count).map (fun i => mu + sigma * g.normal (start + i))

/- challenge1.py ------------------------------------------------------- -/

/-- One entry of the `clusters` list of challenge1.py: center, scale and
count for the x and y normal draws. -/
structure Cluster where
  cx : ℝ
  cy : ℝ
  sx : ℝ
  sy : ℝ
  count : ℕ

/-- The three clusters of challenge1.py (lines 13-17). -/
noncomputable def clusters : List Cluster :=
  [⟨0.3, 0.4, 0.08, 0.1, 90⟩, ⟨0.9, 1.2, 0.12, 0.18, 90⟩, ⟨1.6, 2.1, 0.15, 0.25, 60⟩]

/-- The generation loop of challenge1.py (lines 19-25): for each cluster,
draw `count` x-values then `count` y-values from the same generator. -/
noncomputable def clusterLoop (g : RngStreams) : List Cluster → ℕ → List ℝ × List ℝ
  | [], _ => ([], [])
  | c :: rest, off =>
    (npNormalDraws g off c.cx c.sx c.count
       ++ (clusterLoop g rest (off + 2 * c.count)).1,
     npNormalDraws g (off + c.count) c.cy c.sy c.count
       ++ (clusterLoop g rest (off + 2 * c.count)).2)

/-- The CPU-demand array `x = np.concatenate(xs)` of challenge1.py (line 27). -/
noncomputable def challenge1_x (g : RngStreams) : List ℝ :=
  (clusterLoop g clusters 0).1

/-- The array `y = np.clip(np.concatenate(ys), 0.15, None)` of challenge1.py
(line 29): clipped from below at 0.15, unbounded above. -/
noncomputable def challenge1_y (g : RngStreams) : List ℝ :=
  ((clusterLoop g clusters 0).2).map (fun v => max 0.15 v)

/-- np.linspace a b k: k evenly spaced points from a to b inclusive. -/
noncomputable def npLinspace (a b : ℝ) (k : ℕ) : List ℝ :=
  (List.range k).map (fun (i : ℕ) => a + (b - a) * (i : ℝ) / ((k : ℝ) - 1))

/-- The fixed histogram bins of challenge1.py (line 35): 24 bins on [0, 2.4]. -/
noncomputable def ch1_bins : List ℝ := npLinspace 0 2.4 25

/- numpy histogram semantics ------------------------------------------ -/

/-- Bin counts of np.histogram with explicit edges: bin i is the
half-open interval [edges i, edges (i+1)), except the last bin which is
closed.  Samples outside [first edge, last edge] are not counted. -/
noncomputable def histCounts : List ℝ → List ℝ → List ℕ
  | e0 :: e1 :: es, xs =>
    (match es with
     | [] => xs.countP (fun v => decide (e0 ≤ v ∧ v ≤ e1))
     | _ :: _ => xs.countP (fun v => decide (e0 ≤ v ∧ v < e1)))
      :: histCounts (e1 :: es) xs
  | _, _ => []

/-- Last element of a list, with a default for the empty list. -/
def lastD (d : ℝ) : List ℝ → ℝ
  | [] => d
  | [a] => a
  | _ :: b :: t => lastD d (b :: t)

/- variation.py -------------------------------------------------------- -/

/-- The fixed seed of variation.py (line 17). -/
def RNG_SEED : ℕ := 2025

/-- Log-space means of the three mixture components (line 31). -/
noncomputable def comps_mu : ℕ → ℝ
  | 0 => -1.1
  | 1 => -0.1
  | _ => 0.6

/-- Log-space standard deviations of the three mixture components (line 32). -/
noncomputable def comps_sigma : ℕ → ℝ
  | 0 => 0.35
  | 1 => 0.25
  | _ => 0.40

/-- synth_single_function_cpu_usage (variation.py lines 19-36): draw a
component index per sample, then a lognormal value with that component's
parameters. -/
noncomputable def synth_single_function_cpu_usage (n : ℕ) (g : RngStreams) : List ℝ :=
  (List.range n).map (fun i =>
    let z := g.choice i % 3
    Real.exp (comps_mu z + comps_sigma z * g.normal i))

/-- Positions already consumed in each draw stream. -/
structure RngCtr where
  n : ℕ
  c : ℕ
  i : ℕ
  u : ℕ

/-- The ddof=1 sample standard deviation used by cpu_i.std(ddof=1)
(variation.py line 77). -/
noncomputable def sampleStd (xs : List ℝ) : ℝ :=
  Real.sqrt
    (((xs.map (fun x => (x - xs.sum / (xs.length : ℝ)) ^ 2)).sum)
      / ((xs.length : ℝ) - 1))

/-- Result of one iteration of the loop of synth_many_functions_std:
the invocation count, the per-invocation cpu samples, and the advanced
stream positions. -/
structure FuncDraw where
  count : ℕ
  cpu : List ℝ
  next : RngCtr

/-- One iteration of the loop of synth_many_functions_std (variation.py
lines 50-77): n_i = rng.integers(min_inv, max_inv + 1), a lognormal base
scale and variance scale, then either a two-component lognormal mixture
(probability 0.35) or a single lognormal, elementwise over n_i samples. -/
noncomputable def synthFunctionSamples (g : RngStreams) (mi ma : ℕ) (k : RngCtr) :
    FuncDraw :=
  let ni := mi + g.ints k.i % (ma + 1 - mi)
  let base_scale := Real.exp (-0.4 + 0.5 * g.normal k.n)
  let var_scale := Real.exp (-1.0 + 0.6 * g.normal (k.n + 1))
  if g.unif k.u < 0.35 then
    let mu1 := Real.log (max 1e-6 (0.6 * base_scale))
    let mu2 := Real.log (max 1e-6 (1.6 * base_scale))
    let sigma1 := 0.25 + 0.6 * var_scale
    let sigma2 := 0.30 + 0.8 * var_scale
    { count := ni
      cpu := (List.range ni).map (fun j =>
        if g.choice (k.c + j) % 2 = 0 then
          Real.exp (mu1 + sigma1 * g.normal (k.n + 2 + j))
        else
          Real.exp (mu2 + sigma2 * g.normal (k.n + 2 + j)))
      next := ⟨k.n + 2 + ni, k.c + ni, k.i + 1, k.u + 1⟩ }
  else
    let mu := Real.log (max 1e-6 base_scale)
    let sigma := 0.25 + 0.9 * var_scale
    { count := ni
      cpu := (List.range ni).map (fun j =>
        Real.exp (mu + sigma * g.normal (k.n + 2 + j)))
      next := ⟨k.n + 2 + ni, k.c, k.i + 1, k.u + 1⟩ }

/-- The loop of synth_many_functions_std, collecting for each function its
invocation count and the ddof=1 standard deviation of its samples. -/
noncomputable def synthLoop (g : RngStreams) (mi ma : ℕ) : ℕ → RngCtr → List (ℕ × ℝ)
  | 0, _ => []
  | Nat.succ m, k =>
    let d := synthFunctionSamples g mi ma k
    (d.count, sampleStd d.cpu) :: synthLoop g mi ma m d.next

/-- synth_many_functions_std (variation.py lines 39-79): the list of
per-function standard deviations. -/
noncomputable def synth_many_functions_std (nf mi ma : ℕ) (g : RngStreams) : List ℝ :=
  (synthLoop g mi ma nf ⟨0, 0, 0, 0⟩).map Prod.snd

/-- The per-function invocation counts drawn by synth_many_functions_std. -/
noncomputable def synth_inv_counts (nf mi ma : ℕ) (g : RngStreams) : List ℕ :=
  (synthLoop g mi ma nf ⟨0, 0, 0, 0⟩).map Prod.fst

/-- np.quantile with the default linear interpolation: with s the sorted
sample of length n and h = (n - 1) * q, interpolate between the entries at
positions floor h and min (floor h + 1) (n - 1). -/
noncomputable def sortList (xs : List ℝ) : List ℝ :=
  xs.insertionSort (· ≤ ·)

noncomputable def npQuantile (xs : List ℝ) (q : ℝ) : ℝ :=
  let s := sortList xs
  let n := s.length
  let h := ((n : ℝ) - 1) * q
  let f := (⌊h⌋).toNat
  let gi := min (f + 1) (n - 1)
  s.getD f 0 + (h - ((⌊h⌋ : ℤ) : ℝ)) * (s.getD gi 0 - s.getD f 0)

/-- The first n draws of a sample stream: a growing sample from a fixed
underlying distribution. -/
noncomputable def sampleOf (u : ℕ → ℝ) (n : ℕ) : List ℝ :=
  (List.range n).map u

/- challenge2.py ------------------------------------------------------- -/

/-- int(n * frac) for frac = num/100: the truncated component sizes of
draw_cpu_mem_ratio_hist (challenge2.py lines 183-186). -/
def truncFrac (n num : ℕ) : ℕ := n * num / 100

/-- The concatenated raw ratio draws of draw_cpu_mem_ratio_hist
(challenge2.py lines 182-187): three normal components and one lognormal
component with truncated sizes. -/
noncomputable def ratiosRaw (n : ℕ) (g : RngStreams) : List ℝ :=
  npNormalDraws g 0 0.5 0.15 (truncFrac n 35)
    ++ npNormalDraws g (truncFrac n 35) 1.0 0.20 (truncFrac n 35)
    ++ npNormalDraws g (truncFrac n 35 + truncFrac n 35) 2.0 0.35 (truncFrac n 25)
    ++ (List.range (truncFrac n 5)).map (fun i =>
         Real.exp (Real.log 4.0
           + 0.35 * g.normal (truncFrac n 35 + truncFrac n 35 + truncFrac n 25 + i)))

/-- np.clip v 0.05 8.0. -/
noncomputable def clip0508 (v : ℝ) : ℝ := min 8 (max 0.05 v)

/-- The plotted ratios of draw_cpu_mem_ratio_hist (challenge2.py lines
188-189): keep the draws above 0.02, then clip into [0.05, 8.0]. -/
noncomputable def ratios (n : ℕ) (g : RngStreams) : List ℝ :=
  ((ratiosRaw n g).filter (fun v => decide ((0.02 : ℝ) < v))).map clip0508

/-- np.geomspace a b k: k logarithmically spaced points from a to b. -/
noncomputable def npGeomspace (a b : ℝ) (k : ℕ) : List ℝ :=
  (List.range k).map (fun (i : ℕ) => a * (b / a) ^ ((i : ℝ) / ((k : ℝ) - 1)))

/-- The histogram bins of draw_cpu_mem_ratio_hist (challenge2.py line 192). -/
noncomputable def ch2_bins : List ℝ := npGeomspace 0.05 8 40

/- output paths and filesystem events --------------------------------- -/

/-- Whether a path ends with a slash. -/
def endsWithSlash (s : String) : Bool :=
  match s.data.getLast? with
  | some c => c = '/'
  | none => false

/-- os.path.join for a directory and a file name. -/
def joinPath (d f : String) : String :=
  if d = "" then f else if endsWithSlash d then d ++ f else d ++ "/" ++ f

/-- The output directory constant of challenge1.py (line 6). -/
def out_dir : String := "./"

/-- The output directory constant of challenge2.py (line 9). -/
def OUT_DIR : String := "./"

/-- The output path of challenge1.py (line 100). -/
def challenge1_out_path : String := joinPath out_dir "challenge1_mix.pdf"

/-- The three output paths of challenge2.py main (lines 211-221). -/
def challenge2_out_paths : List String :=
  [joinPath OUT_DIR "challenge2_eviction_amplification.png",
   joinPath OUT_DIR "challenge2_stranding.png",
   joinPath OUT_DIR "cpu_mem_ratio_hist.png"]

/-- The default save path of plot_figure in variation.py (line 82). -/
def variation_default_save_path : String := "./usage_variation.pdf"

/-- All output file paths written by the three scripts. -/
def allOutputPaths : List String :=
  challenge1_out_path :: challenge2_out_paths ++ [variation_default_save_path]

/-- The prefix of a character list up to and including its last slash
(empty if there is no slash). -/
def headUpToLastSlash : List Char → List Char
  | [] => []
  | c :: rest =>
    let t := headUpToLastSlash rest
    if t = [] then (if c = '/' then [c] else []) else c :: t

/-- Drop trailing slashes. -/
def rstripSlash (cs : List Char) : List Char :=
  (cs.reverse.dropWhile (fun c => c = '/')).reverse

/-- os.path.dirname: everything up to the last slash, with trailing
slashes stripped unless the result consists only of slashes. -/
def dirname (s : String) : String :=
  let head := headUpToLastSlash s.data
  if head.all (fun c => c = '/') then String.mk head else String.mk (rstripSlash head)

/-- Two directory strings denote the same directory when they agree after
stripping trailing slashes (so "./" and "." coincide). -/
def normDir (s : String) : String :=
  if s.data.all (fun c => c = '/') then s else String.mk (rstripSlash s.data)

/-- A filesystem event: os.makedirs (with its exist_ok flag) or a savefig. -/
inductive FsEvent where
  | makeDirs : String → Bool → FsEvent
  | save : String → FsEvent
deriving DecidableEq

/-- The filesystem trace of challenge1.py: makedirs at import time, then
the single savefig. -/
def challenge1_trace : List FsEvent :=
  [FsEvent.makeDirs out_dir true, FsEvent.save challenge1_out_path]

/-- The filesystem trace of challenge2.py: makedirs at import time, then
the three savefig calls of main. -/
def challenge2_trace : List FsEvent :=
  FsEvent.makeDirs OUT_DIR true :: challenge2_out_paths.map FsEvent.save

/-- The filesystem trace of plot_figure (variation.py lines 88-90, 135):
makedirs on the dirname when it is non-empty, then the savefig. -/
def plot_figure_trace (sp : String) : List FsEvent :=
  (if dirname sp == "" then [] else [FsEvent.makeDirs (dirname sp) true])
    ++ [FsEvent.save sp]

/-- The filesystem trace of running variation.py with the default path. -/
def variation_trace : List FsEvent := plot_figure_trace variation_default_save_path

/-- Before position j of the trace there is a makedirs (with exist_ok set)
of the directory of p, unless p has an empty dirname. -/
def parentPrepared (tr : List FsEvent) (j : ℕ) (p : String) : Bool :=
  (dirname p == "") ||
    (List.range j).any (fun i =>
      match tr.getD i (FsEvent.save "") with
      | FsEvent.makeDirs d ok => ok && (normDir d == normDir (dirname p))
      | _ => false)

/-- Every save event of the trace is preceded by a makedirs of the saved
path's directory (or the path has an empty dirname and the current
directory is used). -/
def ensuresParent (tr : List FsEvent) : Bool :=
  (List.range tr.length).all (fun j =>
    match tr.getD j (FsEvent.makeDirs "" true) with
    | FsEvent.save p => parentPrepared tr j p
    | _ => true)

/- global plotting style (variation.py lines 92-99) -------------------- -/

/-- The process-wide matplotlib style state touched by plot_figure: the
style sheet and the six rcParams entries it assigns. -/
structure RcParams where
  styleSheet : String
  fontFamily : String
  fontSize : ℕ
  axesLabelsize : ℕ
  xtickLabelsize : ℕ
  ytickLabelsize : ℕ
  legendFontsize : ℕ
deriving DecidableEq

/-- The sequential mutation of the global style state performed by
plot_figure (variation.py lines 92-99). -/
def plot_figure_style (rc : RcParams) : RcParams :=
  let rc1 := { rc with styleSheet := "seaborn-v0_8-whitegrid" }
  let rc2 := { rc1 with fontFamily := "Arial" }
  let rc3 := { rc2 with fontSize := 16 }
  let rc4 := { rc3 with axesLabelsize := 18 }
  let rc5 := { rc4 with xtickLabelsize := 15 }
  let rc6 := { rc5 with ytickLabelsize := 15 }
  { rc6 with legendFontsize := 15 }

/-- A call event of plot_figure: a global style assignment, a rendering
call, or the final savefig. -/
inductive PlotEvent where
  | styleConfig : String → PlotEvent
  | draw : String → PlotEvent
  | save : String → PlotEvent
deriving DecidableEq

/-- Whether an event is a global style assignment. -/
def PlotEvent.isStyle : PlotEvent → Bool
  | PlotEvent.styleConfig _ => true
  | _ => false

/-- The ordered call events of plot_figure (variation.py lines 92-135):
the style sheet selection, the six rcParams assignments, the rendering
calls, and the savefig. -/
def plot_figure_events (sp : String) : List PlotEvent :=
  [PlotEvent.styleConfig "style.use",
   PlotEvent.styleConfig "font.family",
   PlotEvent.styleConfig "font.size",
   PlotEvent.styleConfig "axes.labelsize",
   PlotEvent.styleConfig "xtick.labelsize",
   PlotEvent.styleConfig "ytick.labelsize",
   PlotEvent.styleConfig "legend.fontsize",
   PlotEvent.draw "subplots",
   PlotEvent.draw "hist-panel-a",
   PlotEvent.draw "hist-panel-b",
   PlotEvent.draw "xlim-a",
   PlotEvent.draw "xlim-b",
   PlotEvent.save sp]

/- whole-script runs --------------------------------------------------- -/

/-- Running challenge1.py: the generated sample array is a function of the
embedded seed 7 only; the process input is never read. -/
noncomputable def challenge1Run (inp : ScriptInput) : List ℝ :=
  challenge1_x (defaultRng 7)

/-- Running challenge2.py: the ratio samples are a function of the embedded
seed 42 and the embedded size 2000 only. -/
noncomputable def challenge2Run (inp : ScriptInput) : List ℝ :=
  ratios 2000 (defaultRng 42)

/-- Running variation.py main (lines 139-143): both synthetic arrays come
from the single generator seeded with RNG_SEED, the second call continuing
after the draws consumed by the first. -/
noncomputable def variationRun (inp : ScriptInput) : List ℝ × List ℝ :=
  (synth_single_function_cpu_usage 6000 (defaultRng RNG_SEED),
   synth_many_functions_std 500 300 5000 (shift (defaultRng RNG_SEED) 6000 6000 0 0))

end SP

namespace SP

/- helper lemmas: lastD and lists ------------------------------------- -/

theorem lastD_cons_cons (d a b : ℝ) (t : List ℝ) :
    lastD d (a :: b :: t) = lastD d (b :: t) := rfl

theorem lastD_append_singleton (d x : ℝ) : ∀ l : List ℝ, lastD d (l ++ [x]) = x
  | [] => rfl
  | [_] => rfl
  | a :: b :: t2 => by
    rw [List.cons_append, List.cons_append, lastD_cons_cons, ← List.cons_append]
    exact lastD_append_singleton d x (b :: t2)

theorem lastD_mem (d : ℝ) : ∀ (a : ℝ) (l : List ℝ), lastD d (a :: l) ∈ a :: l
  | _, [] => by simp [lastD]
  | a, b :: t => by
    rw [lastD_cons_cons]
    exact List.mem_cons_of_mem a (lastD_mem d b t)

theorem lastD_map_range (f : ℕ → ℝ) (k : ℕ) (hk : 0 < k) (d : ℝ) :
    lastD d ((List.range k).map f) = f (k - 1) := by
  cases k with
  | zero => omega
  | succ m =>
    rw [List.range_succ, List.map_append]
    simpa using lastD_append_singleton d (f m) ((List.range m).map f)

theorem headD_map_range (f : ℕ → ℝ) (k : ℕ) (hk : 0 < k) (d : ℝ) :
    ((List.range k).map f).headD d = f 0 := by
  cases k with
  | zero => omega
  | succ m =>
    rw [List.range_succ_eq_map]
    simp

/- helper lemmas: histogram bin counts -------------------------------- -/

theorem histCounts_two (e0 e1 : ℝ) (xs : List ℝ) :
    histCounts [e0, e1] xs = [xs.countP (fun v => decide (e0 ≤ v ∧ v ≤ e1))] := rfl

theorem histCounts_cons (e0 e1 e2 : ℝ) (es : List ℝ) (xs : List ℝ) :
    histCounts (e0 :: e1 :: e2 :: es) xs
      = xs.countP (fun v => decide (e0 ≤ v ∧ v < e1))
          :: histCounts (e1 :: e2 :: es) xs := rfl

theorem countP_or_split (p q : ℝ → Bool) (xs : List ℝ)
    (hd : ∀ v, ¬(p v = true ∧ q v = true)) :
    xs.countP (fun v => p v || q v) = xs.countP p + xs.countP q := by
  induction xs with
  | nil => simp
  | cons a t ih =>
    rw [List.countP_cons, List.countP_cons, List.countP_cons, ih]
    cases hp : p a with
    | false => cases hq : q a with
      | false => simp [hp, hq]
      | true => simp [hp, hq]; omega
    | true => cases hq : q a with
      | false => simp [hp, hq]; omega
      | true => exact absurd ⟨hp, hq⟩ (hd a)

theorem histCounts_sum_aux :
    ∀ (es : List ℝ) (e0 e1 : ℝ) (xs : List ℝ),
      (e0 :: e1 :: es).Pairwise (· < ·) →
      (histCounts (e0 :: e1 :: es) xs).sum
        = xs.countP (fun v => decide (e0 ≤ v ∧ v ≤ lastD 0 (e1 :: es)))
  | [], e0, e1, xs, _ => by
    rw [histCounts_two]
    simp [lastD]
  | e2 :: es2, e0, e1, xs, h => by
    have htail := histCounts_sum_aux es2 e1 e2 xs h.of_cons
    rw [histCounts_cons, List.sum_cons, htail, lastD_cons_cons]
    have h01 : e0 < e1 := (List.pairwise_cons.mp h).1 e1 (by simp)
    have h1L : e1 < lastD 0 (e2 :: es2) :=
      (List.pairwise_cons.mp h.of_cons).1 _ (lastD_mem 0 e2 es2)
    have hfun : (fun v => decide (e0 ≤ v ∧ v ≤ lastD 0 (e2 :: es2)))
        = fun v => (decide (e0 ≤ v ∧ v < e1) || decide (e1 ≤ v ∧ v ≤ lastD 0 (e2 :: es2))) := by
      funext v
      rw [← Bool.decide_or, decide_eq_decide]
      constructor
      · rintro ⟨hv0, hvL⟩
        by_cases hv1 : v < e1
        · exact Or.inl ⟨hv0, hv1⟩
        · exact Or.inr ⟨le_of_not_lt hv1, hvL⟩
      · rintro (⟨hv0, hv1⟩ | ⟨hv1, hvL⟩)
        · exact ⟨hv0, le_of_lt (lt_of_lt_of_le hv1 (le_of_lt h1L))⟩
        · exact ⟨le_of_lt (lt_of_lt_of_le h01 hv1), hvL⟩
    rw [hfun, countP_or_split]
    intro v ⟨hv1, hv2⟩
    rw [decide_eq_true_eq] at hv1 hv2
    exact absurd hv2.1 (not_le.mpr hv1.2)

theorem histCounts_sum (edges xs : List ℝ) (he : edges.Pairwise (· < ·))
    (hlen : 2 ≤ edges.length) (lo hi : ℝ) (hlo : edges.headD 0 = lo)
    (hhi : lastD 0 edges = hi) :
    (histCounts edges xs).sum = xs.countP (fun v => decide (lo ≤ v ∧ v ≤ hi)) := by
  match edges, he, hlen, hlo, hhi with
  | e0 :: e1 :: es, he, _, hlo, hhi =>
    subst hlo
    rw [← hhi, lastD_cons_cons]
    simpa using histCounts_sum_aux es e0 e1 xs he

/- helper lemmas: linspace and geomspace bins -------------------------- -/

theorem npLinspace_pairwise (a b : ℝ) (k : ℕ) (hab : a < b) (hk : 2 ≤ k) :
    (npLinspace a b k).Pairwise (· < ·) := by
  unfold npLinspace
  refine List.Pairwise.map _ (fun i j hij => ?_) (List.pairwise_lt_range k)
  have hk2 : (2 : ℝ) ≤ (k : ℝ) := by exact_mod_cast hk
  have hden : (0 : ℝ) < (k : ℝ) - 1 := by linarith
  have hij2 : (i : ℝ) < (j : ℝ) := by exact_mod_cast hij
  have hmul : (b - a) * (i : ℝ) < (b - a) * (j : ℝ) := by nlinarith
  have hinv : (0 : ℝ) < ((k : ℝ) - 1)⁻¹ := inv_pos.mpr hden
  have key := mul_lt_mul_of_pos_right hmul hinv
  rw [div_eq_mul_inv, div_eq_mul_inv]
  linarith

theorem npGeomspace_pairwise (a b : ℝ) (k : ℕ) (ha : 0 < a) (hab : a < b)
    (hk : 2 ≤ k) : (npGeomspace a b k).Pairwise (· < ·) := by
  unfold npGeomspace
  refine List.Pairwise.map _ (fun i j hij => ?_) (List.pairwise_lt_range k)
  have hb1 : 1 < b / a := (one_lt_div ha).mpr hab
  have hk2 : (2 : ℝ) ≤ (k : ℝ) := by exact_mod_cast hk
  have hden : (0 : ℝ) < (k : ℝ) - 1 := by linarith
  have hexp : (i : ℝ) / ((k : ℝ) - 1) < (j : ℝ) / ((k : ℝ) - 1) := by
    have hij2 : (i : ℝ) < (j : ℝ) := by exact_mod_cast hij
    have hinv : (0 : ℝ) < ((k : ℝ) - 1)⁻¹ := inv_pos.mpr hden
    rw [div_eq_mul_inv, div_eq_mul_inv]
    exact mul_lt_mul_of_pos_right hij2 hinv
  have hpow := (Real.rpow_lt_rpow_left_iff hb1).mpr hexp
  exact mul_lt_mul_of_pos_left hpow ha

theorem npGeomspace_headD (a b : ℝ) (k : ℕ) (hk : 0 < k) :
    (npGeomspace a b k).headD 0 = a := by
  unfold npGeomspace
  rw [headD_map_range _ k hk]
  simp [Real.rpow_zero]

theorem npGeomspace_lastD (a b : ℝ) (k : ℕ) (ha : a ≠ 0) (hk : 2 ≤ k) :
    lastD 0 (npGeomspace a b k) = b := by
  unfold npGeomspace
  rw [lastD_map_range _ k (by omega)]
  have h1 : 1 ≤ k := by omega
  rw [Nat.cast_sub h1, Nat.cast_one]
  have hne : (k : ℝ) - 1 ≠ 0 := by
    have : (2 : ℝ) ≤ (k : ℝ) := by exact_mod_cast hk
    intro hcon
    linarith
  rw [div_self hne, Real.rpow_one, mul_comm, div_mul_cancel₀ _ ha]

theorem ch1_bins_pairwise : ch1_bins.Pairwise (· < ·) :=
  npLinspace_pairwise 0 2.4 25 (by norm_num) (by norm_num)

theorem ch1_bins_headD : ch1_bins.headD 0 = 0 := by
  unfold ch1_bins npLinspace
  rw [headD_map_range _ 25 (by norm_num)]
  norm_num

theorem ch1_bins_lastD : lastD 0 ch1_bins = 2.4 := by
  unfold ch1_bins npLinspace
  rw [lastD_map_range _ 25 (by norm_num)]
  norm_num

theorem ch1_bins_length : ch1_bins.length = 25 := by
  simp [ch1_bins, npLinspace]

theorem ch2_bins_pairwise : ch2_bins.Pairwise (· < ·) :=
  npGeomspace_pairwise 0.05 8 40 (by norm_num) (by norm_num) (by norm_num)

theorem ch2_bins_headD : ch2_bins.headD 0 = 0.05 :=
  npGeomspace_headD 0.05 8 40 (by norm_num)

theorem ch2_bins_lastD : lastD 0 ch2_bins = 8 :=
  npGeomspace_lastD 0.05 8 40 (by norm_num) (by norm_num)

theorem ch2_bins_length : ch2_bins.length = 40 := by
  simp [ch2_bins, npGeomspace]

end SP

namespace SP

/- helper lemmas: sorting and np.quantile ------------------------------ -/

theorem sortList_sorted (xs : List ℝ) : (sortList xs).Sorted (· ≤ ·) :=
  List.sorted_insertionSort _ xs

theorem sortList_length (xs : List ℝ) : (sortList xs).length = xs.length :=
  (List.perm_insertionSort _ xs).length_eq

theorem sorted_getD_le (s : List ℝ) (hs : s.Sorted (· ≤ ·)) (i j : ℕ) (hij : i ≤ j)
    (hj : j < s.length) : s.getD i 0 ≤ s.getD j 0 := by
  have hi : i < s.length := lt_of_le_of_lt hij hj
  rw [List.getD_eq_get s 0 hi, List.getD_eq_get s 0 hj]
  rcases lt_or_eq_of_le hij with hlt | heq
  · exact List.pairwise_iff_get.mp hs ⟨i, hi⟩ ⟨j, hj⟩ (Fin.mk_lt_mk.mpr hlt)
  · subst heq
    exact le_refl _

theorem npQuantile_le_top (xs : List ℝ) (hne : xs ≠ []) (q : ℝ) (hq0 : 0 ≤ q)
    (hq1 : q ≤ 1) :
    npQuantile xs q ≤ (sortList xs).getD ((sortList xs).length - 1) 0 := by
  have hs : (sortList xs).Sorted (· ≤ ·) := sortList_sorted xs
  have hlenq : (sortList xs).length = xs.length := sortList_length xs
  have hpos : 0 < (sortList xs).length := by
    rw [hlenq]
    exact List.length_pos.mpr hne
  simp only [npQuantile]
  set s := sortList xs
  set n := s.length with hn
  set h := ((n : ℝ) - 1) * q with hh
  have hn1 : (1 : ℝ) ≤ (n : ℝ) := by exact_mod_cast hpos
  have hh0 : 0 ≤ h := mul_nonneg (by linarith) hq0
  have hfl0 : (0 : ℤ) ≤ ⌊h⌋ := Int.floor_nonneg.mpr hh0
  have hhle : h ≤ (n : ℝ) - 1 := by nlinarith
  have hcast : ((n : ℝ) - 1) = (((n : ℤ) - 1 : ℤ) : ℝ) := by push_cast; ring
  have hfle : ⌊h⌋ ≤ (n : ℤ) - 1 := by
    have hmono := Int.floor_le_floor (α := ℝ) hhle
    rwa [hcast, Int.floor_intCast] at hmono
  have ht0 : 0 ≤ h - ((⌊h⌋ : ℤ) : ℝ) := sub_nonneg.mpr (Int.floor_le h)
  have ht1 : h - ((⌊h⌋ : ℤ) : ℝ) ≤ 1 := by
    have hlt := Int.lt_floor_add_one h
    linarith
  have hglt : min (⌊h⌋.toNat + 1) (n - 1) < n := by omega
  have hab : s.getD ⌊h⌋.toNat 0 ≤ s.getD (min (⌊h⌋.toNat + 1) (n - 1)) 0 :=
    sorted_getD_le s hs _ _ (by omega) hglt
  have hbtop : s.getD (min (⌊h⌋.toNat + 1) (n - 1)) 0 ≤ s.getD (n - 1) 0 :=
    sorted_getD_le s hs _ _ (by omega) (by omega)
  have hba : 0 ≤ s.getD (min (⌊h⌋.toNat + 1) (n - 1)) 0 - s.getD ⌊h⌋.toNat 0 :=
    sub_nonneg.mpr hab
  nlinarith [mul_le_mul_of_nonneg_right ht1 hba]

theorem sortList_top_mem (xs : List ℝ) (hne : xs ≠ []) :
    (sortList xs).getD ((sortList xs).length - 1) 0 ∈ xs := by
  have hlenq : (sortList xs).length = xs.length := sortList_length xs
  have hpos : 0 < (sortList xs).length := by
    rw [hlenq]
    exact List.length_pos.mpr hne
  have hlt : (sortList xs).length - 1 < (sortList xs).length := by omega
  rw [List.getD_eq_get _ 0 hlt]
  exact (List.perm_insertionSort (· ≤ ·) xs).mem_iff.mp (List.get_mem _ _ hlt)

/- helper lemmas: generated arrays ------------------------------------- -/

theorem npNormalDraws_length (g : RngStreams) (start : ℕ) (mu sigma : ℝ)
    (count : ℕ) : (npNormalDraws g start mu sigma count).length = count := by
  simp [npNormalDraws]

theorem challenge1_x_length (g : RngStreams) : (challenge1_x g).length = 240 := by
  simp [challenge1_x, clusters, clusterLoop, npNormalDraws]

theorem mem_challenge1_x_gNeg : (0.3 + 0.08 * (-10 : ℝ)) ∈ challenge1_x gNeg := by
  have h0 : (0.3 + 0.08 * (-10 : ℝ)) ∈ npNormalDraws gNeg 0 0.3 0.08 90 := by
    simp only [npNormalDraws, List.mem_map]
    refine ⟨0, by simp, ?_⟩
    simp [gNeg]
  simp only [challenge1_x, clusters, clusterLoop]
  exact List.mem_append_left _ h0

theorem synth_single_length (n : ℕ) (g : RngStreams) :
    (synth_single_function_cpu_usage n g).length = n := by
  simp [synth_single_function_cpu_usage]

theorem synth_single_pos (n : ℕ) (g : RngStreams) :
    ∀ v ∈ synth_single_function_cpu_usage n g, 0 < v := by
  intro v hv
  simp only [synth_single_function_cpu_usage, List.mem_map] at hv
  obtain ⟨i, -, rfl⟩ := hv
  exact Real.exp_pos _

theorem challenge1_y_clipped (g : RngStreams) :
    ∀ w ∈ challenge1_y g, 0.15 ≤ w := by
  intro w hw
  simp only [challenge1_y, List.mem_map] at hw
  obtain ⟨v, -, rfl⟩ := hw
  exact le_max_left _ _

theorem ratios_mem_bounds (n : ℕ) (g : RngStreams) :
    ∀ v ∈ ratios n g, 0.05 ≤ v ∧ v ≤ 8 := by
  intro v hv
  simp only [ratios, List.mem_map] at hv
  obtain ⟨w, -, rfl⟩ := hv
  unfold clip0508
  exact ⟨le_min (by norm_num) (le_max_left _ _), min_le_left _ _⟩

theorem ratiosRaw_length (n : ℕ) (g : RngStreams) :
    (ratiosRaw n g).length
      = truncFrac n 35 + truncFrac n 35 + truncFrac n 25 + truncFrac n 5 := by
  simp [ratiosRaw, npNormalDraws]
  omega

theorem truncFrac_sum_le (n : ℕ) :
    truncFrac n 35 + truncFrac n 35 + truncFrac n 25 + truncFrac n 5 ≤ n := by
  unfold truncFrac
  omega

theorem ratios_length_le (n : ℕ) (g : RngStreams) : (ratios n g).length ≤ n := by
  calc (ratios n g).length
      = ((ratiosRaw n g).filter (fun v => decide ((0.02 : ℝ) < v))).length := by
        simp [ratios]
    _ ≤ (ratiosRaw n g).length := List.length_filter_le _ _
    _ ≤ n := by
        rw [ratiosRaw_length]
        exact truncFrac_sum_le n

theorem synthFunctionSamples_count (g : RngStreams) (mi ma : ℕ) (k : RngCtr) :
    (synthFunctionSamples g mi ma k).count = mi + g.ints k.i % (ma + 1 - mi) := by
  unfold synthFunctionSamples
  by_cases hc : g.unif k.u < 0.35 <;> simp [hc]

theorem synthLoop_length (g : RngStreams) (mi ma : ℕ) :
    ∀ (m : ℕ) (k : RngCtr), (synthLoop g mi ma m k).length = m
  | 0, _ => rfl
  | Nat.succ m, k => by
    simp only [synthLoop, List.length_cons, synthLoop_length g mi ma m]

theorem synthLoop_mem (g : RngStreams) (mi ma : ℕ) :
    ∀ (m : ℕ) (k : RngCtr), ∀ p ∈ synthLoop g mi ma m k, mi ≤ p.1 ∧ 0 ≤ p.2
  | 0, _, p, hp => absurd hp (by simp [synthLoop])
  | Nat.succ m, k, p, hp => by
    simp only [synthLoop, List.mem_cons] at hp
    rcases hp with rfl | hp
    · constructor
      · rw [synthFunctionSamples_count]
        exact Nat.le_add_right mi _
      · exact Real.sqrt_nonneg _
    · exact synthLoop_mem g mi ma m _ p hp

end SP

namespace SP

/- claims C1 - C5 ------------------------------------------------------ -/

/-- C1 (counterexample): for the draw streams whose standard-normal draws
are all -10, the CPU-demand array x of challenge1.py contains the negative
value 0.3 + 0.08 * (-10): x is built from unclipped normal draws, so the
claimed non-negativity of every element of x fails. -/
theorem c1_counterexample : ¬ (∀ v ∈ challenge1_x gNeg, 0 ≤ v) := by
  intro hall
  have hm := hall _ mem_challenge1_x_gNeg
  norm_num at hm

/-- C1 (amended): every value returned by synth_single_function_cpu_usage
is non-negative (indeed strictly positive) for every sample count and every
draw stream, since each sample is a lognormal value; and the clipped array
y of challenge1.py is bounded below by 0.15.  The unclipped CPU-demand
array x of challenge1.py carries no such guarantee. -/
theorem c1_claim :
    (∀ (n : ℕ) (g : RngStreams), ∀ v ∈ synth_single_function_cpu_usage n g, 0 ≤ v) ∧
    (∀ g : RngStreams, ∀ w ∈ challenge1_y g, 0.15 ≤ w) :=
  ⟨fun n g v hv => le_of_lt (synth_single_pos n g v hv),
   fun g w hw => challenge1_y_clipped g w hw⟩

/-- C1 (witness): the amended claim evaluated at sample count 1 and the
all-zero draw streams. -/
theorem c1_witness :
    (0 : ℝ) ≤ Real.exp (comps_mu (gZero.choice 0 % 3)
      + comps_sigma (gZero.choice 0 % 3) * gZero.normal 0) :=
  c1_claim.1 1 gZero _ (by simp [synth_single_function_cpu_usage])

/-- C2 (counterexample): for the draw streams whose standard-normal draws
are all -10, the sample 0.3 + 0.08 * (-10) of challenge1.py falls outside
the fixed bin range [0, 2.4], so the bin counts sum to strictly fewer than
len x: numpy drops out-of-range samples. -/
theorem c2_counterexample :
    (histCounts ch1_bins (challenge1_x gNeg)).sum ≠ (challenge1_x gNeg).length := by
  rw [histCounts_sum ch1_bins _ ch1_bins_pairwise
      (by rw [ch1_bins_length]; norm_num) 0 2.4 ch1_bins_headD ch1_bins_lastD]
  intro h
  have hall := List.countP_eq_length.mp h
  have hm := hall _ mem_challenge1_x_gNeg
  rw [decide_eq_true_eq] at hm
  have hm1 := hm.1
  norm_num at hm1

/-- C2 (amended): for the fixed bins of challenge1.py, the histogram bin
counts sum to the number of samples lying within the bin range [0, 2.4]
(hence never more than the number of samples); the sum equals len x exactly
when every sample lies in that range. -/
theorem c2_claim (xs : List ℝ) :
    (histCounts ch1_bins xs).sum
      = xs.countP (fun v => decide ((0 : ℝ) ≤ v ∧ v ≤ 2.4)) ∧
    (histCounts ch1_bins xs).sum ≤ xs.length := by
  have hsum := histCounts_sum ch1_bins xs ch1_bins_pairwise
    (by rw [ch1_bins_length]; norm_num) 0 2.4 ch1_bins_headD ch1_bins_lastD
  refine ⟨hsum, ?_⟩
  rw [hsum]
  exact List.countP_le_length _

/-- C3: each script's generated data is a deterministic function of its
embedded seed and constants: two runs on arbitrary (and different) process
inputs produce identical sample arrays, and each run equals the generator
applied to the stream seeded with the script's embedded seed (7 for
challenge1.py, 42 for challenge2.py, 2025 for variation.py). -/
theorem c3_claim (i1 i2 : ScriptInput) :
    challenge1Run i1 = challenge1Run i2 ∧
    challenge1Run i1 = challenge1_x (defaultRng 7) ∧
    challenge2Run i1 = challenge2Run i2 ∧
    challenge2Run i1 = ratios 2000 (defaultRng 42) ∧
    variationRun i1 = variationRun i2 ∧
    variationRun i1 = (synth_single_function_cpu_usage 6000 (defaultRng RNG_SEED),
      synth_many_functions_std 500 300 5000 (shift (defaultRng RNG_SEED) 6000 6000 0 0)) :=
  ⟨rfl, rfl, rfl, rfl, rfl, rfl⟩

/-- A sample stream whose first draw is 10 and whose later draws are 0. -/
noncomputable def u10 : ℕ → ℝ := fun i => if i = 0 then 10 else 0

theorem sampleOf_u10_one : sampleOf u10 1 = [10] := by
  simp [sampleOf, u10, List.range_succ]

theorem sampleOf_u10_two : sampleOf u10 2 = [10, 0] := by
  simp [sampleOf, u10, List.range_succ]

theorem sortList_u10_pair : sortList [(10 : ℝ), 0] = [0, 10] := by
  unfold sortList
  norm_num [List.insertionSort, List.orderedInsert]

theorem npQuantile_u10_one : npQuantile [(10 : ℝ)] 0.995 = 10 := by
  have hsort : sortList [(10 : ℝ)] = [10] := by
    unfold sortList
    norm_num [List.insertionSort, List.orderedInsert]
  simp only [npQuantile, hsort]
  norm_num

theorem npQuantile_u10_two : npQuantile [(10 : ℝ), 0] 0.995 = 9.95 := by
  simp only [npQuantile, sortList_u10_pair]
  norm_num

/-- C4 (counterexample): for the sample stream 10, 0, 0, ... the 99.5th
percentile of the 2-element sample (9.95) is strictly below that of the
1-element sample (10): the quantile-based axis limit is not monotonically
non-decreasing in the sample size. -/
theorem c4_counterexample :
    npQuantile (sampleOf u10 2) 0.995 < npQuantile (sampleOf u10 1) 0.995 := by
  rw [sampleOf_u10_one, sampleOf_u10_two, npQuantile_u10_one, npQuantile_u10_two]
  norm_num

/-- C4 (amended): the 99.5th-percentile of the smaller sample is bounded by
an element of the larger sample (the axis limit never exceeds the data
range), although it is not monotone in the sample size. -/
theorem c4_claim (u : ℕ → ℝ) (n1 n2 : ℕ) (h1 : 1 ≤ n1) (h12 : n1 ≤ n2) :
    ∃ m ∈ sampleOf u n2, npQuantile (sampleOf u n1) 0.995 ≤ m := by
  have hlen : (sampleOf u n1).length = n1 := by simp [sampleOf]
  have hne : sampleOf u n1 ≠ [] := by
    intro hcon
    rw [hcon] at hlen
    simp at hlen
    omega
  refine ⟨(sortList (sampleOf u n1)).getD ((sortList (sampleOf u n1)).length - 1) 0,
    ?_, npQuantile_le_top _ hne 0.995 (by norm_num) (by norm_num)⟩
  have hmem := sortList_top_mem (sampleOf u n1) hne
  simp only [sampleOf, List.mem_map, List.mem_range] at hmem ⊢
  obtain ⟨i, hir, hui⟩ := hmem
  exact ⟨i, by omega, hui⟩

/-- C4 (witness): the amended claim evaluated at the stream 10, 0, 0, ...
with sample sizes 1 and 1. -/
theorem c4_witness :
    ∃ m ∈ sampleOf u10 1, npQuantile (sampleOf u10 1) 0.995 ≤ m :=
  c4_claim u10 1 1 (le_refl 1) (le_refl 1)

/-- C5 (counterexample): for n = 10 and the all-zero draw streams, the
ratios array of draw_cpu_mem_ratio_hist has 8 elements, not 10: the four
component sizes int(10 * 0.35), int(10 * 0.35), int(10 * 0.25),
int(10 * 0.05) truncate to 3 + 3 + 2 + 0 = 8. -/
theorem c5_counterexample :
    (ratios 10 gZero).length = 8 ∧ (ratios 10 gZero).length ≠ 10 := by
  have hall : ∀ a ∈ ratiosRaw 10 gZero, (fun v => decide ((0.02 : ℝ) < v)) a = true := by
    intro a ha
    simp only [ratiosRaw, npNormalDraws, truncFrac, gZero, List.mem_append,
      List.mem_map, List.mem_range] at ha
    rcases ha with ((⟨i, hi, rfl⟩ | ⟨i, hi, rfl⟩) | ⟨i, hi, rfl⟩) | ⟨i, hi, rfl⟩
    · simp only [decide_eq_true_eq]
      norm_num
    · simp only [decide_eq_true_eq]
      norm_num
    · simp only [decide_eq_true_eq]
      norm_num
    · exact absurd hi (by omega)
  have hlen8 : (ratios 10 gZero).length = 8 := by
    unfold ratios
    rw [List.length_map, List.filter_eq_self.mpr hall, ratiosRaw_length]
    rfl
  exact ⟨hlen8, by rw [hlen8]; norm_num⟩

/-- C5 (amended): synth_single_function_cpu_usage n returns exactly n
values for every draw stream; the ratios array of draw_cpu_mem_ratio_hist
has at most n elements (the truncated component sizes sum to at most n and
the filter on values above 0.02 can only remove elements). -/
theorem c5_claim (n : ℕ) (g : RngStreams) :
    (synth_single_function_cpu_usage n g).length = n ∧ (ratios n g).length ≤ n :=
  ⟨synth_single_length n g, ratios_length_le n g⟩

end SP

namespace SP

/- claims C6 - C10 ----------------------------------------------------- -/

/-- C6 (counterexample): the five output paths used by challenge1.py,
challenge2.py and variation.py have no duplicates, so the claimed filename
collision between scripts does not exist in the code. -/
theorem c6_counterexample : allOutputPaths.Nodup := by decide

/-- C6 (amended): no script writes its figure under another script's output
file name: the output paths of the three scripts are pairwise distinct. -/
theorem c6_claim : allOutputPaths.Pairwise (· ≠ ·) := by decide

/-- C7 (counterexample): the default save path of plot_figure is
"./usage_variation.pdf", whose dirname is "." and in particular is not
empty, contrary to the claim's description of the default path. -/
theorem c7_counterexample :
    dirname variation_default_save_path = "."
      ∧ dirname variation_default_save_path ≠ "" := by
  constructor
  · decide
  · decide

/-- C7 (amended): every script and export function ensures the parent
directory of each output path exists before saving (makedirs with exist_ok
precedes every savefig); in plot_figure this holds for every save_path with
non-empty dirname, and a save_path with empty dirname gets no directory
creation (the current directory is used).  The default save path has
dirname ".", which is non-empty. -/
theorem c7_claim :
    ensuresParent challenge1_trace = true ∧
    ensuresParent challenge2_trace = true ∧
    ensuresParent variation_trace = true ∧
    ∀ sp : String, ensuresParent (plot_figure_trace sp) = true := by
  refine ⟨by decide, by decide, by decide, fun sp => ?_⟩
  cases hd : (dirname sp == "") with
  | true =>
    simp [plot_figure_trace, ensuresParent, parentPrepared, hd, List.range_succ]
  | false =>
    simp [plot_figure_trace, ensuresParent, parentPrepared, hd, List.range_succ]

/-- C8: plot_figure assigns the process-wide style defaults (the style
sheet, the font family and the five font-size settings) before any drawing
call, the assignments overwrite the previous global state for every prior
state, and nothing restores the prior state afterwards: the resulting
state is the fixed mutated record regardless of the initial one. -/
theorem c8_claim (rc : RcParams) (sp : String) :
    plot_figure_style rc
      = ⟨"seaborn-v0_8-whitegrid", "Arial", 16, 18, 15, 15, 15⟩ ∧
    (rc.fontFamily ≠ "Arial" → plot_figure_style rc ≠ rc) ∧
    ((plot_figure_events sp).takeWhile PlotEvent.isStyle).length = 7 ∧
    (∀ e ∈ (plot_figure_events sp).dropWhile PlotEvent.isStyle,
      PlotEvent.isStyle e = false) := by
  refine ⟨rfl, ?_, rfl, ?_⟩
  · intro hne heq
    apply hne
    have hf := congrArg RcParams.fontFamily heq
    rw [← hf]
    rfl
  · intro e he
    simp only [plot_figure_events, List.dropWhile, PlotEvent.isStyle,
      List.mem_cons, List.mem_singleton, List.not_mem_nil, or_false] at he
    rcases he with rfl | rfl | rfl | rfl | rfl | rfl <;> rfl

/-- C8 (witness): the mutation applied to a differing initial global state
leaves a changed state behind. -/
theorem c8_witness :
    plot_figure_style ⟨"classic", "DejaVu Sans", 10, 10, 10, 10, 10⟩
      ≠ ⟨"classic", "DejaVu Sans", 10, 10, 10, 10, 10⟩ :=
  (c8_claim ⟨"classic", "DejaVu Sans", 10, 10, 10, 10, 10⟩
    "./usage_variation.pdf").2.1 (by decide)

/-- C9: after the filter and the clip of draw_cpu_mem_ratio_hist, every
plotted ratio lies in [0.05, 8.0]; the geomspace bin edges span exactly
[0.05, 8.0]; hence the histogram bin counts sum to the full number of
plotted samples: every sample falls in some bin. -/
theorem c9_claim (n : ℕ) (g : RngStreams) :
    (∀ v ∈ ratios n g, 0.05 ≤ v ∧ v ≤ 8) ∧
    ch2_bins.headD 0 = 0.05 ∧ lastD 0 ch2_bins = 8 ∧
    (histCounts ch2_bins (ratios n g)).sum = (ratios n g).length := by
  refine ⟨ratios_mem_bounds n g, ch2_bins_headD, ch2_bins_lastD, ?_⟩
  rw [histCounts_sum ch2_bins _ ch2_bins_pairwise
      (by rw [ch2_bins_length]; norm_num) 0.05 8 ch2_bins_headD ch2_bins_lastD]
  apply List.countP_eq_length.mpr
  intro v hv
  rw [decide_eq_true_eq]
  exact ratios_mem_bounds n g v hv

theorem mem_ratios_three :
    clip0508 (0.5 + 0.15 * gZero.normal 0) ∈ ratios 3 gZero := by
  unfold ratios
  apply List.mem_map_of_mem
  rw [List.mem_filter]
  constructor
  · simp only [ratiosRaw, npNormalDraws, truncFrac, List.mem_append,
      List.mem_map, List.mem_range]
    left
    left
    left
    refine ⟨0, by omega, ?_⟩
    norm_num [gZero]
  · simp only [decide_eq_true_eq, gZero]
    norm_num

/-- C9 (witness): the invariant evaluated at n = 3, the all-zero draw
streams, and the first plotted sample. -/
theorem c9_witness :
    0.05 ≤ clip0508 (0.5 + 0.15 * gZero.normal 0)
      ∧ clip0508 (0.5 + 0.15 * gZero.normal 0) ≤ 8 :=
  (c9_claim 3 gZero).1 _ mem_ratios_three

/-- C10: synth_many_functions_std returns exactly num_functions values for
every draw stream; every returned value is non-negative (it is the square
root of the ddof=1 variance); every per-function invocation count is at
least min_inv, hence at least 2 whenever min_inv is at least 2, so the
ddof=1 standard deviation divides by a positive count minus one. -/
theorem c10_claim (nf mi ma : ℕ) (g : RngStreams) (h2 : 2 ≤ mi) :
    (synth_many_functions_std nf mi ma g).length = nf ∧
    (∀ v ∈ synth_many_functions_std nf mi ma g, 0 ≤ v) ∧
    (∀ c ∈ synth_inv_counts nf mi ma g, mi ≤ c) ∧
    (∀ c ∈ synth_inv_counts nf mi ma g, 2 ≤ c) := by
  refine ⟨?_, ?_, ?_, ?_⟩
  · unfold synth_many_functions_std
    rw [List.length_map, synthLoop_length]
  · intro v hv
    unfold synth_many_functions_std at hv
    rw [List.mem_map] at hv
    obtain ⟨p, hp, rfl⟩ := hv
    exact (synthLoop_mem g mi ma nf _ p hp).2
  · intro c hc
    unfold synth_inv_counts at hc
    rw [List.mem_map] at hc
    obtain ⟨p, hp, rfl⟩ := hc
    exact (synthLoop_mem g mi ma nf _ p hp).1
  · intro c hc
    unfold synth_inv_counts at hc
    rw [List.mem_map] at hc
    obtain ⟨p, hp, rfl⟩ := hc
    exact le_trans h2 (synthLoop_mem g mi ma nf _ p hp).1

/-- C10 (witness): the theorem evaluated at one function, min_inv = 2,
max_inv = 3 and the all-zero draw streams. -/
theorem c10_witness : (synth_many_functions_std 1 2 3 gZero).length = 1 :=
  (c10_claim 1 2 3 gZero (by norm_num)).1

end SP
